import Mathlib

/-
Verification of TextClipFactory (src/textclip_factory/text_clip_factory.py)
against its natural-language specification.

The Python module is shallowly embedded below:
  * a parameter map (Python `Dict[str, Any]`) becomes an association list of
    string keys and `Value`s (Python dicts have unique keys; lookup takes the
    first match);
  * Python numbers (`int`/`float`) become `ℚ`;
  * raising `ValueError` becomes returning `Except.error` with a constructor
    per distinct raise site (`float(...)` parse failure included);
  * a moviepy `TextClip` becomes a `Clip` record holding the constructor
    parameters, the start time, the (nullable) duration, and the ordered list
    of effects applied to it (each `Effect(...).apply(clip)` call appends one
    `AppliedEffect`);
  * `merge_consecutive_texts` mutates Python dict objects in place, so it is
    embedded twice: once as a pure function on values, and once against an
    explicit store of entries addressed by indices, where the input is a list
    of references into the store.
-/

namespace TextClipFactory

/-- Python values that can appear in a parameter map: strings, ints, floats,
2-tuples, lists of strings, and `None`. -/
inductive Value where
  | str (s : String)
  | int (n : ℤ)
  | float (q : ℚ)
  | pair (a b : Value)
  | strList (l : List String)
  | pynone
deriving DecidableEq, Repr

/-- Python `int` and `float` values as rationals; `none` otherwise
(mirrors `isinstance(v, (int, float))` followed by numeric use). -/
def Value.toNum : Value → Option ℚ
  | .int n => some (n : ℚ)
  | .float q => some q
  | _ => Option.none

/-- A Python parameter dictionary: association list with string keys. -/
def Params := List (String × Value)

instance : DecidableEq Params := by unfold Params; infer_instance

/-- Lookup `parameters.get(k)` / `k in parameters`: first binding of the key. -/
def getParam (p : Params) (k : String) : Option Value :=
  (p.find? (fun kv => kv.1 == k)).map (fun kv => kv.2)

/-- Lookup `parameters.get(k, d)`: lookup with a default. -/
def getParamD (p : Params) (k : String) (d : Value) : Value :=
  (getParam p k).getD d

/-- The distinct failure sites of the module.  The first five are the
`ValueError`s raised by `validate_parameters` (the spec's `InvalidParameter`
family), `missingDuration` is the `ValueError` raised before a `fadeout` on a
clip with no duration (the spec's `MissingDuration`), and `floatParseError` is
the `ValueError` raised by `float(effect_value[0])` on non-numeric text. -/
inductive Err where
  | invalidWord
  | invalidFontsize
  | invalidSize
  | invalidStartTime
  | invalidEndTime
  | missingDuration
  | floatParseError
deriving DecidableEq, Repr

/-- Python `s.split(sep)` on a 1-character separator: split at every
occurrence, keeping empty pieces (`"a,,b" ↦ ["a","","b"]`, `"" ↦ [""]`). -/
def pySplitAux (sep : Char) : List Char → List Char → List String
  | [], acc => [acc.reverse.asString]
  | c :: rest, acc =>
    if c = sep then acc.reverse.asString :: pySplitAux sep rest []
    else pySplitAux sep rest (c :: acc)

/-- Python `s.split(sep)`; see `pySplitAux`. -/
def pySplit (s : String) (sep : Char) : List String :=
  pySplitAux sep s.data []

/-- Python `s.strip()`: remove leading and trailing whitespace. -/
def pyStrip (s : String) : String :=
  ((s.data.dropWhile Char.isWhitespace).reverse.dropWhile Char.isWhitespace).reverse.asString

/-- Check `'word' not in parameters or not isinstance(parameters['word'], str)
or not parameters['word'].strip()`. -/
def wordParamInvalid (p : Params) : Bool :=
  match getParam p "word" with
  | Option.none => true
  | some (.str s) => pyStrip s == ""
  | some _ => true

/-- Check `'fontsize' in parameters and (not isinstance(parameters['fontsize'], int)
or parameters['fontsize'] <= 0)`. -/
def fontsizeParamInvalid (p : Params) : Bool :=
  match getParam p "fontsize" with
  | Option.none => false
  | some (.int n) => decide (n ≤ 0)
  | some _ => true

/-- Check `'size' in parameters and (not a 2-tuple of positive ints)`. -/
def sizeParamInvalid (p : Params) : Bool :=
  match getParam p "size" with
  | Option.none => false
  | some (.pair (.int a) (.int b)) => decide (a ≤ 0) || decide (b ≤ 0)
  | some _ => true

/-- Check `'start_time' in parameters and (not numeric or negative)`. -/
def startTimeParamInvalid (p : Params) : Bool :=
  match getParam p "start_time" with
  | Option.none => false
  | some v =>
    match v.toNum with
    | some q => decide (q < 0)
    | Option.none => true

/-- Check `'end_time' in parameters and (not numeric or
end_time <= parameters.get('start_time', 0))`.  (When `start_time` is present
but non-numeric this function is never consulted: `validate_parameters` has
already raised `invalidStartTime`.) -/
def endTimeParamInvalid (p : Params) : Bool :=
  match getParam p "end_time" with
  | Option.none => false
  | some v =>
    match v.toNum with
    | some e => decide (e ≤ (((getParam p "start_time").bind Value.toNum).getD 0))
    | Option.none => true

/-- Embedding of `TextClipFactory.validate_parameters`: the four `if`/`raise` checks, in
source order. -/
def validate_parameters (p : Params) : Except Err Unit :=
  if wordParamInvalid p then .error .invalidWord
  else if fontsizeParamInvalid p then .error .invalidFontsize
  else if sizeParamInvalid p then .error .invalidSize
  else if startTimeParamInvalid p then .error .invalidStartTime
  else if endTimeParamInvalid p then .error .invalidEndTime
  else .ok ()

/-- One record per `Effect(...).apply(clip)` call the module can make:
`FadeIn`, `FadeOut`, `BlackAndWhite`, `MirrorX`, `MirrorY`, `Resize`. -/
inductive AppliedEffect where
  | fadeIn (d : ℚ)
  | fadeOut (d : ℚ)
  | blackAndWhite
  | mirrorX
  | mirrorY
  | resize (scale : ℚ)
deriving DecidableEq, Repr

/-- A moviepy `TextClip` as the module observes it: the constructor parameters
(`text_clip_params`), the start set by `with_start`, the nullable duration set
by `with_duration`, and the ordered effects applied so far. -/
structure Clip where
  styleParams : List (String × Value)
  start : ℚ
  duration : Option ℚ
  effects : List AppliedEffect
deriving DecidableEq, Repr

/-- The `text_clip_params` dict literal: each field is the parameter value or
its default.  (`parameters['word']` always exists here because
`validate_parameters` ran first; the `getD .pynone` branch is unreachable.) -/
def text_clip_params (p : Params) : List (String × Value) :=
  [("text", (getParam p "word").getD .pynone),
   ("font", getParamD p "font" (.str "Roboto-Regular")),
   ("color", getParamD p "color" (.str "white")),
   ("stroke_width", getParamD p "stroke_width" (.int 2)),
   ("stroke_color", getParamD p "stroke_color" (.str "black")),
   ("size", getParamD p "size" (.pair (.int 2560) (.int 1440))),
   ("method", getParamD p "method" (.str "caption")),
   ("horizontal_align", getParamD p "horizontal_align" (.str "center")),
   ("text_align", getParamD p "align" (.str "center")),
   ("interline", getParamD p "vertical_align" (.int 5)),
   ("bg_color", getParamD p "bg_color" .pynone),
   ("margin", getParamD p "margin" (.pair .pynone (.int 10))),
   ("font_size", getParamD p "fontsize" (.int 48))]

/-- Digit-string test for `parseFloat`. -/
def digitsOnly (s : String) : Bool :=
  s.data.all Char.isDigit

/-- The natural number denoted by a digit string. -/
def natOfDigits (s : String) : ℕ :=
  s.data.foldl (fun a c => a * 10 + (c.toNat - 48)) 0

/-- Model of Python `float(s)` on the inputs this module meets: optional sign,
decimal digits with an optional fractional part (`"0.2"`, `"3"`, `"1."`,
`".5"`).  Exponent, `inf`/`nan` and underscore forms are outside the scope of
every claim and parse to `none`. -/
def parseUnsignedFloat (t : String) : Option ℚ :=
  match pySplit t '.' with
  | [a] =>
    if a != "" && digitsOnly a then some ((natOfDigits a : ℚ)) else Option.none
  | [a, b] =>
    if (a != "" || b != "") && digitsOnly a && digitsOnly b then
      some ((natOfDigits a : ℚ) + (natOfDigits b : ℚ) / ((10 : ℚ) ^ (b.data.length)))
    else Option.none
  | _ => Option.none

/-- Whitespace and sign handling of Python `float(s)`; see
`parseUnsignedFloat`. -/
def parseFloat (s : String) : Option ℚ :=
  match (pyStrip s).data with
  | '-' :: rest => (parseUnsignedFloat rest.asString).map (fun q => -q)
  | '+' :: rest => parseUnsignedFloat rest.asString
  | t => parseUnsignedFloat t.asString

/-- Parsing `effect_name, *effect_value = effect.split(',')` followed by
`effect_value = float(effect_value[0]) if effect_value else None`: the name is
the text before the first comma; a parameter, when present, must parse as a
float or the loop raises — before the name is looked up in the mapping. -/
def parseEffect (s : String) : Except Err (String × Option ℚ) :=
  match pySplit s ',' with
  | [] => .ok ("", Option.none)
  | [name] => .ok (name, Option.none)
  | name :: v :: _ =>
    match parseFloat v with
    | some q => .ok (name, some q)
    | Option.none => .error .floatParseError

/-- The keys of `effect_mapping`. -/
def knownEffectNames : List String :=
  ["fadein", "fadeout", "blackwhite", "mirrorx", "mirrory", "resize"]

/-- Value of `clip.duration if clip.duration else duration`: Python truthiness, so both
`None` and `0` fall back to the effect parameter `d`. -/
def truthyDuration (c : Clip) (d : ℚ) : ℚ :=
  match c.duration with
  | some q => if q = 0 then d else q
  | Option.none => d

/-- The bodies of the `effect_mapping` lambdas, for a known `name` with
argument `d` (callers pass `effect_value if effect_value is not None else
0.5`).  `fadein` fades by `min(d, truthy duration)`; `fadeout` additionally
returns the clip unchanged when `clip.duration` is falsy (`None` or `0`);
`resize` scales by its argument. -/
def applyKnownEffect (name : String) (d : ℚ) (c : Clip) : Clip :=
  if name == "fadein" then
    { c with effects := c.effects ++ [.fadeIn (min d (truthyDuration c d))] }
  else if name == "fadeout" then
    match c.duration with
    | some q =>
      if q = 0 then c
      else { c with effects := c.effects ++ [.fadeOut (min d q)] }
    | Option.none => c
  else if name == "blackwhite" then { c with effects := c.effects ++ [.blackAndWhite] }
  else if name == "mirrorx" then { c with effects := c.effects ++ [.mirrorX] }
  else if name == "mirrory" then { c with effects := c.effects ++ [.mirrorY] }
  else if name == "resize" then { c with effects := c.effects ++ [.resize d] }
  else c

/-- One iteration of the `for effect in effects` loop: parse the descriptor,
and when the name is in `effect_mapping`, raise if it is `fadeout` on a clip
whose duration is `None`, otherwise apply the mapped lambda with the parsed
value defaulted to `0.5`.  Unknown names fall through: the clip is returned
unchanged. -/
def apply_effect (c : Clip) (s : String) : Except Err Clip :=
  match parseEffect s with
  | .error e => .error e
  | .ok (name, pval) =>
    if knownEffectNames.contains name then
      if name == "fadeout" && c.duration.isNone then .error .missingDuration
      else .ok (applyKnownEffect name (pval.getD (1/2)) c)
    else .ok c

/-- The whole effect loop over the effects list, left to right; a raise in one
iteration aborts the loop. -/
def apply_effects : Clip → List String → Except Err Clip
  | c, [] => .ok c
  | c, s :: rest =>
    match apply_effect c s with
    | .error e => .error e
    | .ok c' => apply_effects c' rest

/-- Default `effects = parameters.get('effects', ["fadein,0.2", "fadeout,0.2"])`. -/
def default_effects : List String := ["fadein,0.2", "fadeout,0.2"]

/-- The effects list used by `create_text_clip`.  (A present `effects` value
that is not a list of strings makes Python iterate over something else
entirely; such configs are outside the spec's data model and outside every
claim, and are embedded as the empty list.) -/
def getEffects (p : Params) : List String :=
  match getParam p "effects" with
  | some (.strList l) => l
  | some _ => []
  | Option.none => default_effects

/-- Resolution `start_time = parameters.get('start_time', 0)`.  After validation a
present value is numeric, so the inner `getD 0` fallback is unreachable. -/
def resolvedStart (p : Params) : ℚ :=
  match getParam p "start_time" with
  | some v => v.toNum.getD 0
  | Option.none => 0

/-- Resolution `duration = parameters.get('duration', 5)` then
`if end_time is not None: duration = end_time - start_time`, as set on the
clip by `with_duration`.  An explicit `duration=None` leaves the duration
unset; a present `end_time` is numeric after validation. -/
def resolvedDuration (p : Params) : Option ℚ :=
  match (getParam p "end_time").bind Value.toNum with
  | some e => some (e - resolvedStart p)
  | Option.none =>
    match getParam p "duration" with
    | Option.none => some 5
    | some v => v.toNum

/-- Embedding of `TextClipFactory.create_text_clip`: validate, build the `TextClip` with
its start and duration, then run the effect loop. -/
def create_text_clip (p : Params) : Except Err Clip :=
  match validate_parameters p with
  | .error e => .error e
  | .ok _ =>
    apply_effects
      { styleParams := text_clip_params p,
        start := resolvedStart p,
        duration := resolvedDuration p,
        effects := [] }
      (getEffects p)

/-- One `{word, start, end}` timing dict. -/
structure WordEntry where
  word : String
  start : ℚ
  end_ : ℚ
deriving DecidableEq, Repr

instance : Inhabited WordEntry := ⟨⟨"", 0, 0⟩⟩

/-- The loop body of `merge_consecutive_texts` in accumulator form: `acc` is
`merged_texts[-1]`, the only element of `merged_texts` the loop still reads or
writes; entries emitted before it are final. -/
def mergeAux (acc : WordEntry) : List WordEntry → List WordEntry
  | [] => [acc]
  | e :: rest =>
    if acc.end_ = e.start then
      mergeAux { word := acc.word ++ " " ++ e.word, start := acc.start, end_ := e.end_ } rest
    else
      acc :: mergeAux e rest

/-- Embedding of `merge_consecutive_texts`, value level: the result read out of the final
`merged_texts` list. -/
def merge_consecutive_texts : List WordEntry → List WordEntry
  | [] => []
  | e :: rest => mergeAux e rest

/-- One iteration of the `merge_consecutive_texts` loop against an explicit
store: `store` holds the dict objects, `merged` holds indices into `store`
(`merged_texts` is a list of references).  `merged_texts[-1]["word"] += ...`
and `merged_texts[-1]["end"] = ...` update the store in place at the index
`merged.getLast?`; `merged_texts.append(entry)` appends the reference `i`
without copying the entry. -/
def mergeStepMut (st : List WordEntry × List ℕ) (i : ℕ) : List WordEntry × List ℕ :=
  match st.2.getLast? with
  | some j =>
    let lastE := st.1.getD j default
    let curE := st.1.getD i default
    if lastE.end_ = curE.start then
      (st.1.set j { word := lastE.word ++ " " ++ curE.word, start := lastE.start, end_ := curE.end_ },
       st.2)
    else (st.1, st.2 ++ [i])
  | Option.none => (st.1, st.2 ++ [i])

/-- Embedding of `merge_consecutive_texts`, reference level: the input is a list of
references `ids` into `store`; the result is the final store together with the
references held by `merged_texts`. -/
def merge_consecutive_texts_mut (store : List WordEntry) (ids : List ℕ) :
    List WordEntry × List ℕ :=
  ids.foldl mergeStepMut (store, [])

/-- The `image_file` argument of `create_video_clip`: a path, or a pre-built
`ImageClip` / `CompositeVideoClip` (tagged opaquely; the module only calls
`with_duration` on them). -/
inductive BaseVisual where
  | path (p : String)
  | prebuiltImage (tag : String)
  | prebuiltComposite (tag : String)
deriving DecidableEq, Repr

/-- One layer of the final composite: the blank `ColorClip` background, the
base image clip, or a word overlay (`with_layer_index(1)`). -/
inductive Layer where
  | color (size : ℤ × ℤ) (rgb : ℤ × ℤ × ℤ) (duration : ℚ)
  | image (source : BaseVisual) (duration : ℚ)
  | overlay (clip : Clip) (layerIndex : ℕ)
deriving DecidableEq, Repr

/-- The `CompositeVideoClip` result: its layer list, bottom to top. -/
structure CompositeVideoClip where
  layers : List Layer
deriving DecidableEq, Repr

/-- The parameter dict literal built for each word inside
`create_video_clip`. -/
def word_clip_params (w : WordEntry) (video_size : ℤ × ℤ) (text_config : Params) : Params :=
  [("effects", .strList ["fadein,0.06", "fadeout,0.06"]),
   ("word", .str w.word),
   ("size", .pair (.int video_size.1) (.int video_size.2)),
   ("fontsize", getParamD text_config "fontsize" (.int 50)),
   ("stroke_width", getParamD text_config "stroke_width" (.int 3)),
   ("color", getParamD text_config "color" (.str "white")),
   ("stroke_color", getParamD text_config "stroke_color" (.str "black")),
   ("start_time", .float w.start),
   ("end_time", .float w.end_)]

/-- The `word_clips` list comprehension: one
`create_text_clip(...).with_layer_index(1)` per word, in list order; a raise
in any element aborts the comprehension. -/
def build_word_clips (video_size : ℤ × ℤ) (text_config : Params) :
    List WordEntry → Except Err (List Layer)
  | [] => .ok []
  | w :: rest =>
    match create_text_clip (word_clip_params w video_size text_config) with
    | .error e => .error e
    | .ok c =>
      match build_word_clips video_size text_config rest with
      | .error e => .error e
      | .ok ls => .ok (Layer.overlay c 1 :: ls)

/-- Embedding of `TextClipFactory.create_video_clip`: build one overlay per word entry (in
list order, each at layer index 1), then composite
`[blank_video, image_clip] + word_clips` bottom to top.  (The Python
`text_config or {}` defaulting is the caller passing `[]`.) -/
def create_video_clip (text_data : List WordEntry) (video_size : ℤ × ℤ)
    (duration : ℚ) (image_file : BaseVisual) (text_config : Params) :
    Except Err CompositeVideoClip :=
  match build_word_clips video_size text_config text_data with
  | .error e => .error e
  | .ok word_clips =>
    .ok { layers := [Layer.color video_size (0, 0, 0) duration,
                     Layer.image image_file duration] ++ word_clips }

/-- Equality on `Except` results is decidable (used to settle concrete runs of
the embedded functions). -/
instance {ε α : Type} [DecidableEq ε] [DecidableEq α] : DecidableEq (Except ε α) :=
  fun a b =>
    match a, b with
    | .ok x, .ok y => if h : x = y then isTrue (by rw [h]) else isFalse (by simp [h])
    | .error x, .error y => if h : x = y then isTrue (by rw [h]) else isFalse (by simp [h])
    | .ok _, .error _ => isFalse (by simp)
    | .error _, .ok _ => isFalse (by simp)

/-- The adjacency condition of the merge: the left entry ends exactly where
the right one starts. -/
abbrev adjacent (a b : WordEntry) : Prop := a.end_ = b.start

/-- The first entry `mergeAux` emits inherits the accumulator's start. -/
theorem mergeAux_head_start (l : List WordEntry) :
    ∀ acc : WordEntry, (mergeAux acc l).head?.map WordEntry.start = some acc.start := by
  induction l with
  | nil => intro acc; rfl
  | cons e rest ih =>
    intro acc
    by_cases h : acc.end_ = e.start
    · simpa [mergeAux, h] using ih _
    · simp [mergeAux, h]

/-- No two consecutive entries emitted by `mergeAux` are adjacent. -/
theorem mergeAux_chain (l : List WordEntry) :
    ∀ acc : WordEntry, List.Chain' (fun a b => ¬ adjacent a b) (mergeAux acc l) := by
  induction l with
  | nil => intro acc; exact List.chain'_singleton acc
  | cons e rest ih =>
    intro acc
    by_cases h : acc.end_ = e.start
    · simpa [mergeAux, h] using ih _
    · rw [mergeAux, if_neg h]
      rw [List.chain'_cons']
      refine ⟨?_, ih e⟩
      intro b hb
      have hh := mergeAux_head_start rest e
      rw [Option.mem_def] at hb
      rw [hb] at hh
      have hb' : b.start = e.start := by
        simpa using hh
      intro hadj
      exact h (hb' ▸ hadj)

/-- On a list with no adjacent consecutive pair, `mergeAux` just replays the
accumulator and the list. -/
theorem mergeAux_of_chain (l : List WordEntry) :
    ∀ acc : WordEntry, List.Chain' (fun a b => ¬ adjacent a b) (acc :: l) →
      mergeAux acc l = acc :: l := by
  induction l with
  | nil => intro acc _; rfl
  | cons e rest ih =>
    intro acc hch
    rw [List.chain'_cons] at hch
    rw [mergeAux, if_neg (hch.1 : ¬ acc.end_ = e.start)]
    rw [ih e hch.2]

/-- C4, general step: `merge_consecutive_texts` folds an adjacent head pair
into one combined entry before continuing, and otherwise emits the head. -/
theorem merge_step (a b : WordEntry) (rest : List WordEntry) :
    merge_consecutive_texts (a :: b :: rest) =
      if adjacent a b then
        merge_consecutive_texts
          ({ word := a.word ++ " " ++ b.word, start := a.start, end_ := b.end_ } :: rest)
      else
        a :: merge_consecutive_texts (b :: rest) := by
  show mergeAux a (b :: rest) = _
  rw [mergeAux]
  by_cases h : adjacent a b
  · rw [if_pos (h : a.end_ = b.start), if_pos h]
    rfl
  · rw [if_neg (h : ¬ a.end_ = b.start), if_neg h]
    rfl

/-- C4: `merge_consecutive_texts` is the single left-to-right accumulator
pass of the claim — an entry adjacent to the accumulator is concatenated onto
its word (space-separated) and extends its end, any other entry starts a new
accumulator — and on the claim's example input
`[{a,0,1},{b,1,2},{c,3,4}]` it returns `[{a b,0,2},{c,3,4}]`. -/
theorem c4_merge_pass_and_example :
    (∀ (a b : WordEntry) (rest : List WordEntry),
      merge_consecutive_texts (a :: b :: rest) =
        if a.end_ = b.start then
          merge_consecutive_texts
            ({ word := a.word ++ " " ++ b.word, start := a.start, end_ := b.end_ } :: rest)
        else
          a :: merge_consecutive_texts (b :: rest)) ∧
    merge_consecutive_texts [⟨"a", 0, 1⟩, ⟨"b", 1, 2⟩, ⟨"c", 3, 4⟩] =
      [⟨"a b", 0, 2⟩, ⟨"c", 3, 4⟩] := by
  constructor
  · intro a b rest
    exact merge_step a b rest
  · decide

/-- C5: `merge_consecutive_texts` is idempotent, and its output has no two
consecutive entries satisfying the adjacency condition. -/
theorem c5_merge_idempotent (x : List WordEntry) :
    merge_consecutive_texts (merge_consecutive_texts x) = merge_consecutive_texts x ∧
    List.Chain' (fun a b => ¬ adjacent a b) (merge_consecutive_texts x) := by
  have hch : List.Chain' (fun a b => ¬ adjacent a b) (merge_consecutive_texts x) := by
    cases x with
    | nil => simp [merge_consecutive_texts]
    | cons e rest => exact mergeAux_chain rest e
  refine ⟨?_, hch⟩
  cases hm : merge_consecutive_texts x with
  | nil => rfl
  | cons e rest =>
    rw [hm] at hch
    exact (mergeAux_of_chain rest e hch : mergeAux e rest = e :: rest)

/-- A fold of `mergeStepMut` in which no step merges: when every consecutive
pair of referenced entries is non-adjacent (including the bridge from the last
already-emitted reference to the first pending one), the store is untouched
and the pending references are appended in order. -/
theorem foldl_mergeStepMut_no_merge (ids : List ℕ) :
    ∀ (store : List WordEntry) (pre : List ℕ),
      (∀ j ∈ pre.getLast?, ∀ i ∈ ids.head?,
        ¬ adjacent (store.getD j default) (store.getD i default)) →
      List.Chain' (fun a b => ¬ adjacent a b) (ids.map (fun i => store.getD i default)) →
      ids.foldl mergeStepMut (store, pre) = (store, pre ++ ids) := by
  induction ids with
  | nil => intro store pre _ _; simp
  | cons i rest ih =>
    intro store pre hbridge hch
    have hstep : mergeStepMut (store, pre) i = (store, pre ++ [i]) := by
      unfold mergeStepMut
      cases hl : pre.getLast? with
      | none => rfl
      | some j =>
        have hne := hbridge j (by rw [Option.mem_def, hl]) i (by rw [Option.mem_def]; rfl)
        simp only []
        rw [if_neg (hne : ¬ (store.getD j default).end_ = (store.getD i default).start)]
    rw [List.foldl_cons, hstep]
    rw [List.map_cons, List.chain'_cons'] at hch
    have := ih store (pre ++ [i]) ?_ hch.2
    · rw [this, List.append_assoc]
      rfl
    · intro j hj i' hi'
      rw [Option.mem_def, List.getLast?_concat] at hj
      injection hj with hj
      subst hj
      cases rest with
      | nil => simp at hi'
      | cons r rs =>
        rw [Option.mem_def, List.head?_cons] at hi'
        injection hi' with hi'
        subst hi'
        exact hch.1 _ (by rw [List.map_cons, List.head?_cons, Option.mem_def])

/-- C6 amended: the loop reuses and mutates input entries, but when no
adjacent pair occurs during the pass — in particular whenever no two
consecutive referenced entries are adjacent — every input entry is left
unchanged and the output references the inputs in order. -/
theorem c6_no_adjacency_no_mutation (store : List WordEntry) (ids : List ℕ)
    (h : List.Chain' (fun a b => ¬ adjacent a b)
      (ids.map (fun i => store.getD i default))) :
    merge_consecutive_texts_mut store ids = (store, ids) := by
  unfold merge_consecutive_texts_mut
  have := foldl_mergeStepMut_no_merge ids store [] (by simp) h
  simpa using this

/-- C6 witness: on two non-adjacent entries, `merge_consecutive_texts_mut`
returns the store unchanged with both references emitted. -/
theorem c6_no_adjacency_witness :
    merge_consecutive_texts_mut [⟨"a", 0, 1⟩, ⟨"b", 2, 3⟩] [0, 1] =
      ([⟨"a", 0, 1⟩, ⟨"b", 2, 3⟩], [0, 1]) :=
  c6_no_adjacency_no_mutation [⟨"a", 0, 1⟩, ⟨"b", 2, 3⟩] [0, 1]
    (List.chain'_pair.mpr (by decide))

/-- C6 counterexample: merging `[{a,0,1},{b,1,2}]` mutates the first input
entry in place — after the call the store holds `{a b,0,2}` at index 0, not
the original `{a,0,1}`, so `merge_consecutive_texts` does not leave every
input entry with its original word, start and end. -/
theorem c6_merge_mutates_counterexample :
    merge_consecutive_texts_mut [⟨"a", 0, 1⟩, ⟨"b", 1, 2⟩] [0, 1] =
      ([⟨"a b", 0, 2⟩, ⟨"b", 1, 2⟩], [0]) ∧
    (⟨"a b", 0, 2⟩ : WordEntry) ≠ ⟨"a", 0, 1⟩ := by
  constructor
  · decide
  · decide

/-- A string is a well-formed effect descriptor when the loop header parses it
without raising: any name, with either no parameter or one that `float`
accepts. -/
def effectParses (s : String) : Bool :=
  match parseEffect s with
  | .ok _ => true
  | .error _ => false

/-- The descriptor's name parses as `fadeout`. -/
def isFadeoutDescriptor (s : String) : Bool :=
  match parseEffect s with
  | .ok (name, _) => name == "fadeout"
  | .error _ => false

/-- Applying any known effect changes neither the duration nor the start. -/
theorem applyKnownEffect_fields (name : String) (d : ℚ) (c : Clip) :
    (applyKnownEffect name d c).duration = c.duration ∧
    (applyKnownEffect name d c).start = c.start := by
  unfold applyKnownEffect
  repeat' split
  all_goals exact ⟨rfl, rfl⟩

/-- One loop iteration that returns normally changes neither the duration nor
the start of the clip. -/
theorem apply_effect_ok_fields {c c' : Clip} {s : String}
    (h : apply_effect c s = .ok c') :
    c'.duration = c.duration ∧ c'.start = c.start := by
  unfold apply_effect at h
  split at h
  · cases h
  · split at h
    · split at h
      · cases h
      · injection h with h
        subst h
        exact applyKnownEffect_fields _ _ c
    · injection h with h
      subst h
      exact ⟨rfl, rfl⟩

/-- The whole effect loop, when it returns normally, changes neither the
duration nor the start of the clip. -/
theorem apply_effects_ok_fields : ∀ (fx : List String) (c c' : Clip),
    apply_effects c fx = .ok c' → c'.duration = c.duration ∧ c'.start = c.start := by
  intro fx
  induction fx with
  | nil =>
    intro c c' h
    injection h with h
    subst h
    exact ⟨rfl, rfl⟩
  | cons s rest ih =>
    intro c c' h
    rw [apply_effects] at h
    cases hstep : apply_effect c s with
    | error e => rw [hstep] at h; cases h
    | ok c'' =>
      rw [hstep] at h
      have h1 := apply_effect_ok_fields hstep
      have h2 := ih c'' c' h
      exact ⟨h2.1.trans h1.1, h2.2.trans h1.2⟩

/-- One loop iteration on a well-formed descriptor returns normally whenever
the clip's duration is not `None`. -/
theorem apply_effect_ok_of_some {c : Clip} {s : String}
    (hp : effectParses s = true) (hd : c.duration ≠ Option.none) :
    ∃ c', apply_effect c s = .ok c' := by
  unfold effectParses at hp
  unfold apply_effect
  cases hps : parseEffect s with
  | error e => rw [hps] at hp; cases hp
  | ok r =>
    obtain ⟨name, pval⟩ := r
    dsimp only
    by_cases hk : knownEffectNames.contains name = true
    · rw [if_pos hk]
      have hno : c.duration.isNone = false := by
        cases hdur : c.duration with
        | none => exact absurd hdur hd
        | some q => rfl
      rw [if_neg (by rw [hno, Bool.and_false]; exact Bool.false_ne_true)]
      exact ⟨_, rfl⟩
    · rw [if_neg hk]
      exact ⟨_, rfl⟩

/-- The whole effect loop returns normally on a list of well-formed
descriptors whenever the clip's duration is not `None`. -/
theorem apply_effects_ok_of_some : ∀ (fx : List String) (c : Clip),
    (∀ s ∈ fx, effectParses s = true) → c.duration ≠ Option.none →
    ∃ c', apply_effects c fx = .ok c' ∧ c'.duration = c.duration ∧ c'.start = c.start := by
  intro fx
  induction fx with
  | nil => intro c _ _; exact ⟨c, rfl, rfl, rfl⟩
  | cons s rest ih =>
    intro c hwf hd
    obtain ⟨c'', hstep⟩ := apply_effect_ok_of_some (hwf s (by simp)) hd
    have hfields := apply_effect_ok_fields hstep
    obtain ⟨c', hrest, hfields'⟩ :=
      ih c'' (fun t ht => hwf t (by simp [ht])) (by rw [hfields.1]; exact hd)
    refine ⟨c', ?_, hfields'.1.trans hfields.1, hfields'.2.trans hfields.2⟩
    rw [apply_effects, hstep]
    exact hrest

/-- The `fadeout` lambda, spelled out on the clip's duration field. -/
theorem applyKnownEffect_fadeout (d : ℚ) (c : Clip) :
    applyKnownEffect "fadeout" d c =
      (match c.duration with
       | some q => if q = 0 then c else { c with effects := c.effects ++ [.fadeOut (min d q)] }
       | Option.none => c) := rfl

/-- A Bool is false when it is not true. -/
theorem bool_eq_false {b : Bool} (h : ¬ b = true) : b = false := by
  cases b
  · rfl
  · exact absurd rfl h

/-- Running the loop over a well-formed effects list containing a `fadeout`
descriptor on a clip whose duration is `None` raises the missing-duration
error. -/
theorem apply_effects_none_fadeout : ∀ (fx : List String) (c : Clip),
    (∀ s ∈ fx, effectParses s = true) →
    (∃ s ∈ fx, isFadeoutDescriptor s = true) →
    c.duration = Option.none →
    apply_effects c fx = .error .missingDuration := by
  intro fx
  induction fx with
  | nil =>
    intro c _ hex _
    obtain ⟨s, hs, _⟩ := hex
    cases hs
  | cons s rest ih =>
    intro c hwf hex hdur
    cases hps : parseEffect s with
    | error e =>
      have hw := hwf s (by simp)
      unfold effectParses at hw
      rw [hps] at hw
      cases hw
    | ok r =>
      obtain ⟨name, pval⟩ := r
      by_cases hname : (name == "fadeout") = true
      · have hn : name = "fadeout" := eq_of_beq hname
        subst hn
        have hstep : apply_effect c s = .error .missingDuration := by
          unfold apply_effect
          rw [hps]
          dsimp only
          rw [if_pos (show knownEffectNames.contains "fadeout" = true by rfl)]
          rw [if_pos (by rw [hdur]; rfl)]
        rw [apply_effects, hstep]
      · obtain ⟨t, ht, hfade⟩ := hex
        have htr : t ∈ rest := by
          rcases List.mem_cons.mp ht with hts | htr
          · subst hts
            unfold isFadeoutDescriptor at hfade
            rw [hps] at hfade
            exact absurd hfade hname
          · exact htr
        have hstep : ∃ c', apply_effect c s = .ok c' := by
          unfold apply_effect
          rw [hps]
          dsimp only
          by_cases hk : knownEffectNames.contains name = true
          · rw [if_pos hk]
            rw [if_neg (by rw [bool_eq_false hname, Bool.false_and]; exact Bool.false_ne_true)]
            exact ⟨_, rfl⟩
          · rw [if_neg hk]
            exact ⟨_, rfl⟩
        obtain ⟨c', hstep⟩ := hstep
        have hfields := apply_effect_ok_fields hstep
        rw [apply_effects, hstep]
        exact ih c' (fun t' ht' => hwf t' (List.mem_cons_of_mem _ ht'))
          ⟨t, htr, hfade⟩ (hfields.1.trans hdur)

/-- C2 amended: over a well-formed effects list containing a `fadeout`
descriptor, a clip with unset (`None`) duration fails with the
missing-duration error; a clip with set duration `d0` runs the whole list
without error, and each `fadeout` descriptor with parameter `d` (`0.5` when
omitted) applies a fade-out of length `min(d, d0)` when `d0 ≠ 0` and is
skipped — leaving the clip unchanged — when `d0 = 0`. -/
theorem c2_fadeout_amended (fx : List String) (c : Clip)
    (hwf : ∀ s ∈ fx, effectParses s = true) :
    ((∃ s ∈ fx, isFadeoutDescriptor s = true) → c.duration = Option.none →
      apply_effects c fx = .error .missingDuration) ∧
    (∀ d0 : ℚ, c.duration = some d0 →
      (∃ c', apply_effects c fx = .ok c' ∧ c'.duration = some d0) ∧
      (∀ (s : String) (pv : Option ℚ), parseEffect s = .ok ("fadeout", pv) →
        (d0 ≠ 0 → apply_effect c s =
          .ok { c with effects := c.effects ++ [.fadeOut (min (pv.getD (1/2)) d0)] }) ∧
        (d0 = 0 → apply_effect c s = .ok c))) := by
  constructor
  · intro hex hdur
    exact apply_effects_none_fadeout fx c hwf hex hdur
  · intro d0 hdur
    constructor
    · obtain ⟨c', hok, hfields⟩ :=
        apply_effects_ok_of_some fx c hwf (by rw [hdur]; exact Option.some_ne_none d0)
      exact ⟨c', hok, by rw [hfields.1, hdur]⟩
    · intro s pv hps
      have hstep_eq : apply_effect c s =
          .ok (applyKnownEffect "fadeout" (pv.getD (1/2)) c) := by
        unfold apply_effect
        rw [hps]
        dsimp only
        rw [if_pos (show knownEffectNames.contains "fadeout" = true by rfl)]
        rw [if_neg (by rw [hdur]; exact (by simp : ¬ ("fadeout" == "fadeout" &&
          (some d0).isNone) = true))]
      constructor
      · intro hne
        rw [hstep_eq, applyKnownEffect_fadeout, hdur]
        dsimp only
        rw [if_neg hne]
      · intro h0
        rw [hstep_eq, applyKnownEffect_fadeout, hdur]
        dsimp only
        rw [if_pos h0]

/-- C2 witness: on `["blackwhite", "fadeout,0.2"]`, a clip with no duration
fails with the missing-duration error, and a clip with duration 3 gets a
fade-out of length `min(0.2, 3)` from the `fadeout,0.2` descriptor. -/
theorem c2_fadeout_witness :
    apply_effects ⟨[], 0, Option.none, []⟩ ["blackwhite", "fadeout,0.2"] =
      .error .missingDuration ∧
    apply_effect ⟨[], 0, some 3, []⟩ "fadeout,0.2" =
      .ok ⟨[], 0, some 3, [.fadeOut (min (1/5) 3)]⟩ := by
  have hwf : ∀ s ∈ ["blackwhite", "fadeout,0.2"], effectParses s = true := by
    with_unfolding_all decide
  constructor
  · exact (c2_fadeout_amended ["blackwhite", "fadeout,0.2"] ⟨[], 0, Option.none, []⟩ hwf).1
      ⟨"fadeout,0.2", by simp, by with_unfolding_all rfl⟩ rfl
  · exact (((c2_fadeout_amended ["blackwhite", "fadeout,0.2"] ⟨[], 0, some 3, []⟩ hwf).2
      3 rfl).2 "fadeout,0.2" (some (1/5)) (by with_unfolding_all rfl)).1
      (by norm_num)

/-- C2 counterexample: on a clip whose duration is set to `0`, the `fadeout`
descriptor succeeds but applies nothing at all — the Python lambda's
`if clip.duration` truthiness test skips `0` — instead of applying a fade-out
of length `min(0.5, 0)` as the claim states for every set duration. -/
theorem c2_zero_duration_counterexample :
    apply_effects ⟨[], 0, some 0, []⟩ ["fadeout"] = .ok ⟨[], 0, some 0, []⟩ ∧
    apply_effects ⟨[], 0, some 0, []⟩ ["fadeout"] ≠
      .ok ⟨[], 0, some 0, [.fadeOut (min (1/2) 0)]⟩ := by
  constructor
  · with_unfolding_all rfl
  · with_unfolding_all decide

/-- C7: a well-formed descriptor whose name is not in the effect mapping is a
no-op — the loop iteration returns the clip unchanged, and running any effects
list containing it gives exactly the result of running the list with it
removed.  No error is raised for it. -/
theorem c7_unknown_effect_noop (c : Clip) (l1 l2 : List String)
    (s name : String) (pv : Option ℚ)
    (hp : parseEffect s = .ok (name, pv))
    (hn : knownEffectNames.contains name = false) :
    (∀ c0 : Clip, apply_effect c0 s = .ok c0) ∧
    apply_effects c (l1 ++ s :: l2) = apply_effects c (l1 ++ l2) := by
  have hstep : ∀ c0 : Clip, apply_effect c0 s = .ok c0 := by
    intro c0
    unfold apply_effect
    rw [hp]
    dsimp only
    rw [if_neg (by rw [hn]; exact Bool.false_ne_true)]
  refine ⟨hstep, ?_⟩
  induction l1 generalizing c with
  | nil =>
    show apply_effects c (s :: l2) = apply_effects c l2
    rw [apply_effects, hstep c]
  | cons x l1' ih =>
    show apply_effects c (x :: (l1' ++ s :: l2)) = apply_effects c (x :: (l1' ++ l2))
    rw [apply_effects, apply_effects]
    cases hx : apply_effect c x with
    | error e => rfl
    | ok c' => exact ih c'

/-- C7 witness: `sparkle` is unknown, so running
`["mirrorx", "sparkle", "blackwhite"]` equals running
`["mirrorx", "blackwhite"]`. -/
theorem c7_unknown_effect_witness :
    apply_effects ⟨[], 0, some 5, []⟩ ["mirrorx", "sparkle", "blackwhite"] =
      apply_effects ⟨[], 0, some 5, []⟩ ["mirrorx", "blackwhite"] :=
  (c7_unknown_effect_noop ⟨[], 0, some 5, []⟩ ["mirrorx"] ["blackwhite"]
    "sparkle" "sparkle" Option.none (by with_unfolding_all rfl) rfl).2

/-- The `resize` lambda, spelled out. -/
theorem applyKnownEffect_resize (d : ℚ) (c : Clip) :
    applyKnownEffect "resize" d c = { c with effects := c.effects ++ [.resize d] } := rfl

/-- C8 amended: a bare `resize` descriptor does not fail — the loop's shared
`effect_value if effect_value is not None else 0.5` default kicks in and the
clip is resized with scale `0.5`. -/
theorem c8_bare_resize_defaults (c : Clip) :
    apply_effect c "resize" = .ok { c with effects := c.effects ++ [.resize (1/2)] } := by
  have hp : parseEffect "resize" = .ok ("resize", Option.none) := by
    with_unfolding_all rfl
  unfold apply_effect
  rw [hp]
  dsimp only
  rw [if_pos (show knownEffectNames.contains "resize" = true by rfl)]
  rw [if_neg (by simp : ¬ ("resize" == "fadeout" && c.duration.isNone) = true)]
  rw [applyKnownEffect_resize]
  rfl

/-- C8 counterexample: `create_text_clip` on a config whose effects list is
the bare `["resize"]` succeeds — no invalid-parameter error — and the built
clip carries a resize of scale `0.5`. -/
theorem c8_bare_resize_counterexample :
    create_text_clip [("word", .str "hi"), ("effects", .strList ["resize"])] =
      .ok ⟨text_clip_params [("word", .str "hi"), ("effects", .strList ["resize"])],
           0, some 5, [.resize (1/2)]⟩ := by
  with_unfolding_all rfl

/-- C10: in a `"name,param"` descriptor the parameter is parsed by `float`
before the name is looked up in the effect mapping, so a non-numeric parameter
raises the parse error for any name — unknown names included — and the raise
aborts the rest of the effects list. -/
theorem c10_param_parsed_before_lookup (c : Clip) (s name pstr : String)
    (rest : List String)
    (hs : pySplit s ',' = name :: pstr :: rest)
    (hp : parseFloat pstr = Option.none) :
    apply_effect c s = .error .floatParseError ∧
    ∀ l2 : List String, apply_effects c (s :: l2) = .error .floatParseError := by
  have hpe : parseEffect s = .error .floatParseError := by
    unfold parseEffect
    rw [hs]
    dsimp only
    rw [hp]
  have hstep : apply_effect c s = .error .floatParseError := by
    unfold apply_effect
    rw [hpe]
  refine ⟨hstep, ?_⟩
  intro l2
  rw [apply_effects, hstep]

/-- C10 witness: `"sparkle,abc"` has an unknown name and a non-numeric
parameter, and the loop raises the float-parse error rather than skipping
it. -/
theorem c10_param_parsed_witness :
    apply_effect ⟨[], 0, some 5, []⟩ "sparkle,abc" = .error .floatParseError ∧
    apply_effects ⟨[], 0, some 5, []⟩ ["sparkle,abc", "mirrorx"] =
      .error .floatParseError := by
  have h := c10_param_parsed_before_lookup ⟨[], 0, some 5, []⟩ "sparkle,abc"
    "sparkle" "abc" [] (by with_unfolding_all rfl) (by with_unfolding_all rfl)
  exact ⟨h.1, h.2 ["mirrorx"]⟩

/-- Stripping: `s.strip()` is empty exactly when every character of `s` is
whitespace. -/
theorem pyStrip_eq_empty_iff (s : String) :
    pyStrip s = "" ↔ s.data.all Char.isWhitespace = true := by
  have hdata : ∀ m : List Char, List.asString m = "" ↔ m = [] := by
    intro m
    constructor
    · intro h
      exact congrArg String.data h
    · intro h
      rw [h]
      rfl
  unfold pyStrip
  rw [hdata]
  rw [List.reverse_eq_nil_iff]
  rw [List.dropWhile_eq_nil_iff]
  rw [List.all_eq_true]
  constructor
  · intro h a ha
    have hsplit := List.takeWhile_append_dropWhile
      (p := Char.isWhitespace) (l := s.data)
    rw [← hsplit] at ha
    rcases List.mem_append.mp ha with h1 | h2
    · exact List.mem_takeWhile_imp h1
    · exact h a (by rw [List.mem_reverse]; exact h2)
  · intro h a ha
    rw [List.mem_reverse] at ha
    exact h a ((List.dropWhile_sublist Char.isWhitespace).subset ha)

/-- Validation fails with the word error exactly when the word
check — the first check in source order — fires. -/
theorem validate_invalidWord_iff (p : Params) :
    validate_parameters p = .error .invalidWord ↔ wordParamInvalid p = true := by
  unfold validate_parameters
  by_cases h : wordParamInvalid p = true
  · rw [if_pos h]
    simp [h]
  · rw [if_neg h]
    constructor
    · intro hc
      split_ifs at hc <;> simp at hc
    · intro hb
      exact absurd hb h

/-- C3: `validate_parameters` fails with the invalid-word error exactly when
the `word` field is absent, or present with a non-string value, or present
with a string value made only of whitespace; with a non-blank string `word`
that check passes (any failure is a different error). -/
theorem c3_validate_word_check (p : Params) :
    validate_parameters p = .error .invalidWord ↔
      (getParam p "word" = Option.none ∨
       (∃ v, getParam p "word" = some v ∧ ∀ t : String, v ≠ .str t) ∨
       (∃ t : String, getParam p "word" = some (.str t) ∧
         t.data.all Char.isWhitespace = true)) := by
  rw [validate_invalidWord_iff]
  unfold wordParamInvalid
  cases hw : getParam p "word" with
  | none => exact iff_of_true rfl (Or.inl rfl)
  | some v =>
    cases v with
    | str t =>
      dsimp only
      constructor
      · intro h
        refine Or.inr (Or.inr ⟨t, rfl, ?_⟩)
        rw [← pyStrip_eq_empty_iff]
        exact eq_of_beq h
      · intro h
        rcases h with h | ⟨v', hv', hne⟩ | ⟨t', ht', hall⟩
        · cases h
        · injection hv' with hv'
          exact absurd rfl (hv' ▸ hne t)
        · injection ht' with ht'
          injection ht' with ht'
          subst ht'
          exact beq_of_eq (pyStrip_eq_empty_iff t |>.mpr hall)
    | int n =>
      exact iff_of_true rfl (Or.inr (Or.inl ⟨_, rfl, fun _ h => Value.noConfusion h⟩))
    | float q =>
      exact iff_of_true rfl (Or.inr (Or.inl ⟨_, rfl, fun _ h => Value.noConfusion h⟩))
    | pair a b =>
      exact iff_of_true rfl (Or.inr (Or.inl ⟨_, rfl, fun _ h => Value.noConfusion h⟩))
    | strList l =>
      exact iff_of_true rfl (Or.inr (Or.inl ⟨_, rfl, fun _ h => Value.noConfusion h⟩))
    | pynone =>
      exact iff_of_true rfl (Or.inr (Or.inl ⟨_, rfl, fun _ h => Value.noConfusion h⟩))

/-- A successful `create_text_clip` run returns a clip carrying exactly the
resolved start and resolved duration (the effect loop touches neither). -/
theorem create_text_clip_ok_fields {p : Params} {c : Clip}
    (h : create_text_clip p = .ok c) :
    c.duration = resolvedDuration p ∧ c.start = resolvedStart p := by
  unfold create_text_clip at h
  split at h
  · cases h
  · exact apply_effects_ok_fields (getEffects p) _ c h

/-- C1 amended: every clip `create_text_clip` returns has duration
`end_time - start_time` (start defaulting to 0) when a numeric `end_time` is
supplied, else the caller-supplied `duration` value, else the default 5 — the
duration is never left unset when neither `end_time` nor `duration` is given,
and it is unset only when the caller explicitly passes a null duration and no
`end_time`. -/
theorem c1_duration_resolution (p : Params) (c : Clip)
    (h : create_text_clip p = .ok c) :
    (∀ e : ℚ, (getParam p "end_time").bind Value.toNum = some e →
      c.duration = some (e - (((getParam p "start_time").bind Value.toNum).getD 0))) ∧
    ((getParam p "end_time").bind Value.toNum = Option.none →
      (getParam p "duration" = Option.none → c.duration = some 5) ∧
      (∀ v : Value, getParam p "duration" = some v → c.duration = v.toNum)) := by
  have hd := (create_text_clip_ok_fields h).1
  constructor
  · intro e he
    rw [hd]
    unfold resolvedDuration
    rw [he]
    dsimp only
    congr 1
    unfold resolvedStart
    cases hs : getParam p "start_time" with
    | none => rfl
    | some v => rfl
  · intro hnone
    constructor
    · intro hdur
      rw [hd]
      unfold resolvedDuration
      rw [hnone]
      dsimp only
      rw [hdur]
    · intro v hv
      rw [hd]
      unfold resolvedDuration
      rw [hnone]
      dsimp only
      rw [hv]

/-- The parameter map of the C1 witness: word, start 1, end 3, no effects. -/
def c1WitnessParams : Params :=
  [("word", .str "hi"), ("start_time", .float 1), ("end_time", .float 3),
   ("effects", .strList [])]

/-- The clip the C1 witness produces. -/
def c1WitnessClip : Clip :=
  ⟨text_clip_params c1WitnessParams, 1, some 2, []⟩

/-- C1 witness: with `start_time = 1` and `end_time = 3` the built clip's
duration is `3 - 1`. -/
theorem c1_duration_resolution_witness :
    create_text_clip c1WitnessParams = .ok c1WitnessClip ∧
    c1WitnessClip.duration =
      some ((3 : ℚ) - (((getParam c1WitnessParams "start_time").bind Value.toNum).getD 0)) := by
  have h : create_text_clip c1WitnessParams = .ok c1WitnessClip := by
    with_unfolding_all rfl
  exact ⟨h, (c1_duration_resolution c1WitnessParams c1WitnessClip h).1 3
    (by with_unfolding_all rfl)⟩

/-- C1 counterexample: with neither `end_time` nor `duration` supplied, the
plain single-clip path still resolves the duration — to the default 5 — and
does not leave it unset as the claim's last clause states. -/
theorem c1_duration_not_unset_counterexample :
    (create_text_clip [("word", .str "hi")]).map Clip.duration = .ok (some 5) ∧
    (create_text_clip [("word", .str "hi")]).map Clip.duration ≠ .ok Option.none := by
  constructor
  · with_unfolding_all rfl
  · with_unfolding_all decide

/-- A `text_config` whose `fontsize` entry passes the fontsize check makes the
per-word config (where a missing `fontsize` defaults to 50) pass it too. -/
theorem fontsize_transfer (w : WordEntry) (vs : ℤ × ℤ) (tc : Params)
    (hfs : fontsizeParamInvalid tc = false) :
    fontsizeParamInvalid (word_clip_params w vs tc) = false := by
  unfold fontsizeParamInvalid at hfs ⊢
  rw [show getParam (word_clip_params w vs tc) "fontsize" =
      some ((getParam tc "fontsize").getD (.int 50)) from rfl]
  cases hg : getParam tc "fontsize" with
  | none => rfl
  | some v =>
    rw [hg] at hfs
    exact hfs

/-- The per-word config built by `create_video_clip` passes validation when
the word is non-blank, the canvas is positive, the `text_config` fontsize is
valid, the start is non-negative and the end is after the start. -/
theorem validate_word_clip_params (w : WordEntry) (vs : ℤ × ℤ) (tc : Params)
    (hword : pyStrip w.word ≠ "") (hfs : fontsizeParamInvalid tc = false)
    (hvs1 : 0 < vs.1) (hvs2 : 0 < vs.2)
    (hstart : 0 ≤ w.start) (hlt : w.start < w.end_) :
    validate_parameters (word_clip_params w vs tc) = .ok () := by
  have hWv : wordParamInvalid (word_clip_params w vs tc) = false := by
    show (pyStrip w.word == "") = false
    exact beq_eq_false_iff_ne.mpr hword
  have hFv := fontsize_transfer w vs tc hfs
  have hSzv : sizeParamInvalid (word_clip_params w vs tc) = false := by
    show (decide (vs.1 ≤ 0) || decide (vs.2 ≤ 0)) = false
    rw [decide_eq_false (not_le.mpr hvs1), decide_eq_false (not_le.mpr hvs2)]
    rfl
  have hStv : startTimeParamInvalid (word_clip_params w vs tc) = false := by
    show decide (w.start < 0) = false
    exact decide_eq_false (not_lt.mpr hstart)
  have hEv : endTimeParamInvalid (word_clip_params w vs tc) = false := by
    show decide (w.end_ ≤ w.start) = false
    exact decide_eq_false (not_le.mpr hlt)
  unfold validate_parameters
  rw [hWv, hFv, hSzv, hStv, hEv]
  rfl

/-- Building `create_text_clip` on a per-word config succeeds and positions the clip at
the entry's start with duration `end - start`. -/
theorem create_word_clip_ok (w : WordEntry) (vs : ℤ × ℤ) (tc : Params)
    (hword : pyStrip w.word ≠ "") (hfs : fontsizeParamInvalid tc = false)
    (hvs1 : 0 < vs.1) (hvs2 : 0 < vs.2)
    (hstart : 0 ≤ w.start) (hlt : w.start < w.end_) :
    ∃ c : Clip, create_text_clip (word_clip_params w vs tc) = .ok c ∧
      c.start = w.start ∧ c.duration = some (w.end_ - w.start) := by
  have hval := validate_word_clip_params w vs tc hword hfs hvs1 hvs2 hstart hlt
  have hbase_dur : resolvedDuration (word_clip_params w vs tc) =
      some (w.end_ - w.start) := rfl
  unfold create_text_clip
  rw [hval]
  dsimp only
  obtain ⟨c, hok, hfields⟩ :=
    apply_effects_ok_of_some (getEffects (word_clip_params w vs tc))
      ⟨text_clip_params (word_clip_params w vs tc),
       resolvedStart (word_clip_params w vs tc),
       resolvedDuration (word_clip_params w vs tc), []⟩
      (by show ∀ s ∈ ["fadein,0.06", "fadeout,0.06"], effectParses s = true
          with_unfolding_all decide)
      (by show resolvedDuration (word_clip_params w vs tc) ≠ Option.none
          rw [hbase_dur]
          exact Option.some_ne_none _)
  refine ⟨c, hok, ?_, ?_⟩
  · rw [hfields.2]
    rfl
  · rw [hfields.1]
    exact hbase_dur

/-- The word-clip comprehension over valid entries succeeds, yields one
overlay per entry, in order, each at the entry's start with duration
`end - start`. -/
theorem build_word_clips_ok (vs : ℤ × ℤ) (tc : Params)
    (hfs : fontsizeParamInvalid tc = false) (hvs1 : 0 < vs.1) (hvs2 : 0 < vs.2) :
    ∀ l : List WordEntry,
      (∀ w ∈ l, pyStrip w.word ≠ "" ∧ 0 ≤ w.start ∧ w.start < w.end_) →
      ∃ layers : List Layer, build_word_clips vs tc l = .ok layers ∧
        layers.length = l.length ∧
        ∀ (i : ℕ) (hi : i < l.length) (hi2 : i < layers.length),
          ∃ c : Clip, layers.get ⟨i, hi2⟩ = Layer.overlay c 1 ∧
            c.start = (l.get ⟨i, hi⟩).start ∧
            c.duration = some ((l.get ⟨i, hi⟩).end_ - (l.get ⟨i, hi⟩).start) := by
  intro l
  induction l with
  | nil =>
    intro _
    exact ⟨[], rfl, rfl, fun i hi _ => absurd hi (Nat.not_lt_zero i)⟩
  | cons w rest ih =>
    intro hws
    obtain ⟨hw1, hw2, hw3⟩ := hws w (by simp)
    obtain ⟨c, hc, hcs, hcd⟩ := create_word_clip_ok w vs tc hw1 hfs hvs1 hvs2 hw2 hw3
    obtain ⟨ls, hls, hlen, hidx⟩ := ih (fun w' hw' => hws w' (List.mem_cons_of_mem _ hw'))
    refine ⟨Layer.overlay c 1 :: ls, ?_, ?_, ?_⟩
    · rw [build_word_clips, hc]
      dsimp only
      rw [hls]
    · rw [List.length_cons, List.length_cons, hlen]
    · intro i hi hi2
      cases i with
      | zero => exact ⟨c, rfl, hcs, hcd⟩
      | succ j =>
        have hj : j < rest.length := Nat.lt_of_succ_lt_succ hi
        have hj2 : j < ls.length := Nat.lt_of_succ_lt_succ hi2
        obtain ⟨c', h1, h2, h3⟩ := hidx j hj hj2
        exact ⟨c', h1, h2, h3⟩

/-- C9: over `n` valid word entries (non-blank word, start ≥ 0, end > start,
with a positive canvas and a valid `text_config` fontsize),
`create_video_clip` returns a composite whose layer stack bottom-to-top is the
blank background, the base visual, then exactly `n` word overlays in input
order, the `i`-th built from the `i`-th entry's start and end. -/
theorem c9_compose_overlays (text_data : List WordEntry) (vs : ℤ × ℤ) (dur : ℚ)
    (bg : BaseVisual) (tc : Params)
    (hvs1 : 0 < vs.1) (hvs2 : 0 < vs.2)
    (hfs : fontsizeParamInvalid tc = false)
    (hws : ∀ w ∈ text_data, pyStrip w.word ≠ "" ∧ 0 ≤ w.start ∧ w.start < w.end_) :
    ∃ overlays : List Layer,
      create_video_clip text_data vs dur bg tc =
        .ok ⟨Layer.color vs (0, 0, 0) dur :: Layer.image bg dur :: overlays⟩ ∧
      overlays.length = text_data.length ∧
      ∀ (i : ℕ) (hi : i < text_data.length) (hi2 : i < overlays.length),
        ∃ c : Clip, overlays.get ⟨i, hi2⟩ = Layer.overlay c 1 ∧
          c.start = (text_data.get ⟨i, hi⟩).start ∧
          c.duration = some ((text_data.get ⟨i, hi⟩).end_ -
            (text_data.get ⟨i, hi⟩).start) := by
  obtain ⟨layers, hbuild, hlen, hidx⟩ :=
    build_word_clips_ok vs tc hfs hvs1 hvs2 text_data hws
  refine ⟨layers, ?_, hlen, hidx⟩
  unfold create_video_clip
  rw [hbuild]
  rfl

/-- C9 witness: one word entry `{hi, 0, 2}` over a 100×200 canvas yields the
background, the base image, and one overlay with start 0 and duration
`2 - 0`. -/
theorem c9_compose_witness :
    ∃ overlays : List Layer,
      create_video_clip [⟨"hi", 0, 2⟩] (100, 200) 10 (.path "bg.png") [] =
        .ok ⟨Layer.color (100, 200) (0, 0, 0) 10 ::
             Layer.image (.path "bg.png") 10 :: overlays⟩ ∧
      overlays.length = ([⟨"hi", 0, 2⟩] : List WordEntry).length ∧
      ∀ (i : ℕ) (hi : i < ([⟨"hi", 0, 2⟩] : List WordEntry).length)
        (hi2 : i < overlays.length),
        ∃ c : Clip, overlays.get ⟨i, hi2⟩ = Layer.overlay c 1 ∧
          c.start = (([⟨"hi", 0, 2⟩] : List WordEntry).get ⟨i, hi⟩).start ∧
          c.duration = some ((([⟨"hi", 0, 2⟩] : List WordEntry).get ⟨i, hi⟩).end_ -
            (([⟨"hi", 0, 2⟩] : List WordEntry).get ⟨i, hi⟩).start) :=
  c9_compose_overlays [⟨"hi", 0, 2⟩] (100, 200) 10 (.path "bg.png") []
    (by decide) (by decide) rfl
    (by with_unfolding_all decide)

end TextClipFactory
